import Mathlib

/-!
Shallow embedding of `GWP_calc.py` (radiative forcing / GWP animation).

The numeric pipeline of the script is:
  RF   : raw per-substance radiative-forcing columns (read from CSV),
  RFI  = RF.cumsum(0)                    -- inclusive cumulative sum per column
  GWP  = RFI.div(RFI[CO2], 0)            -- row-wise division by the CO2 column
  RFI *= year_in_s * earth_area          -- scaling applied after GWP is formed

The animation callback `animate(b)` rescales the frame counter by
t_max / b_max, truncates `b / timestep` to an int, and slices each series
with the end-exclusive Python slice `[:index_b]`; horizon annotations use
the predicate `b - 1 < h <= b` and the lookup `GWP.iloc[int(h/timestep)]`.

Columns are modelled as `List ℚ` (CSV floats are read as exact decimal
literals); pandas element-wise division is modelled by `PFloat`, which keeps
the IEEE special values (inf, -inf, nan) that division by zero produces.
-/

namespace RadiativeForcing

/-- Source constant `earth_area = 510072000000000` (m^2). -/
def earth_area : ℚ := 510072000000000

/-- Source constant `year_in_s = 365.2425 * 24 * 3600` (s/yr). -/
def year_in_s : ℚ := 365.2425 * 24 * 3600

/-- The factor applied to RFI in `RFI *= year_in_s * earth_area`. -/
def scale : ℚ := year_in_s * earth_area

/-- Source constant `b_max = 1000` (frame count, from `animate`). -/
def b_max : ℚ := 1000

/-- Source constant `t_max = 10000` (simulation years, from `animate`). -/
def t_max : ℚ := 10000

/-- Source constant `horizons = [20, 100, 500]`. -/
def horizons : List ℚ := [20, 100, 500]

/-- Python `int(q)` on a real value: truncation toward zero. -/
def pyInt (q : ℚ) : ℤ := if 0 ≤ q then ⌊q⌋ else ⌈q⌉

/-- Python `round(q)`: round half to even (banker's rounding). -/
def pyRound (q : ℚ) : ℤ :=
  if q - ⌊q⌋ = 1/2 then (if 2 ∣ ⌊q⌋ then ⌊q⌋ else ⌊q⌋ + 1) else ⌊q + 1/2⌋

/-- Python `round(q, nd)` with a (possibly negative) digit count `nd`. -/
def pyRoundTo (q : ℚ) (nd : ℤ) : ℚ :=
  if 0 ≤ nd then (pyRound (q * 10 ^ nd.toNat) : ℚ) / 10 ^ nd.toNat
  else (pyRound (q / 10 ^ (-nd).toNat) : ℚ) * 10 ^ (-nd).toNat

/-- Python end-exclusive slice `xs[:k]`: a negative bound counts from the
end of the list, an over-long bound is clamped to the whole list. -/
def pySliceTo {α : Type} (xs : List α) (k : ℤ) : List α :=
  if k < 0 then xs.take ((xs.length : ℤ) + k).toNat else xs.take k.toNat

/-- Pandas positional access `xs.iloc[i]`: negative indices count from the
end; out-of-range access raises (modelled as `none`). -/
def pyIloc {α : Type} (xs : List α) (i : ℤ) : Option α :=
  if 0 ≤ i then xs[i.toNat]?
  else if (-i).toNat ≤ xs.length then xs[(xs.length - (-i).toNat)]? else none

/-- Fuel-driven decimal digit counter (`digitsLenAux fuel n`). -/
def digitsLenAux : ℕ → ℕ → ℕ
  | 0, _ => 1
  | fuel + 1, n => if n < 10 then 1 else digitsLenAux fuel (n / 10) + 1

/-- Number of decimal digits of a natural number (1 for 0). -/
def digitsLen (n : ℕ) : ℕ := digitsLenAux n n

/-- Python `len(str(m))` for an integer `m`: digits plus a sign character
for negative values. -/
def digitCount (m : ℤ) : ℕ :=
  if m < 0 then digitsLen (-m).toNat + 1 else digitsLen m.toNat

/-- A pandas float64 cell after an element-wise division: either a finite
(rational) value or one of the IEEE special values. -/
inductive PFloat : Type
  | num (q : ℚ)
  | posInf
  | negInf
  | nan
deriving DecidableEq

/-- Pandas element-wise division of finite values: division by zero yields
inf, -inf or nan (for 0/0); it never raises. -/
def pdiv (a b : ℚ) : PFloat :=
  if b = 0 then (if a = 0 then .nan else if 0 < a then .posInf else .negInf)
  else .num (a / b)

/-- Worker for `cumsum`, carrying the running sum. -/
def cumsumAux (acc : ℚ) : List ℚ → List ℚ
  | [] => []
  | x :: xs => (acc + x) :: cumsumAux (acc + x) xs

/-- Pandas `Series.cumsum()`: inclusive running sums of a column. -/
def cumsum (xs : List ℚ) : List ℚ := cumsumAux 0 xs

/-- One column of `RFI` after the scaling line `RFI *= year_in_s * earth_area`:
the cumulative sum of the raw column, entry-wise times `scale`. -/
def RFI (xs : List ℚ) : List ℚ := (cumsum xs).map (· * scale)

/-- One column of `GWP = RFI.div(RFI[CO2], 0)`: the code divides the
unscaled cumulative sums (the scaling of RFI happens afterwards). -/
def GWP (xs co2 : List ℚ) : List PFloat :=
  List.zipWith pdiv (cumsum xs) (cumsum co2)

/-- Simulation time of a frame: the code's `b *= t_max / b_max` in `animate`. -/
def simTime (f : ℤ) : ℚ := f * (t_max / b_max)

/-- Reveal bound of a frame: the code's `index_b = int(b / timestep)`. -/
def index_b (f : ℤ) (ts : ℚ) : ℤ := pyInt (simTime f / ts)

/-- Horizon-crossing test of the code: `b - 1 < h <= b`. -/
def crossed (f : ℤ) (h : ℚ) : Prop := simTime f - 1 < h ∧ h ≤ simTime f

instance (f : ℤ) (h : ℚ) : Decidable (crossed f h) :=
  inferInstanceAs (Decidable (simTime f - 1 < h ∧ h ≤ simTime f))

/-- Horizon row computation of the code: `int(h / timestep)`. -/
def rowLookup (h ts : ℚ) : ℤ := pyInt (h / ts)

/-- The GWP annotation lookup `GWP.iloc[int(h/timestep), :]` for one column. -/
def horizonGWP (g : List PFloat) (h ts : ℚ) : Option PFloat :=
  pyIloc g (rowLookup h ts)

/-- Per-frame emission of the three panels for one substance: the code
slices each series with the end-exclusive slice `[:index_b]`. -/
def animate_emit (f : ℤ) (ts : ℚ) (raw rfi : List ℚ) (gwp : List PFloat) :
    List ℚ × List ℚ × List PFloat :=
  (pySliceTo raw (index_b f ts), pySliceTo rfi (index_b f ts),
    pySliceTo gwp (index_b f ts))

/-- Digit-count argument of the annotation text: `3 - len(str(int(v)))`. -/
def ndigitsFor (v : ℚ) : ℤ := 3 - (digitCount (pyInt v) : ℤ)

/-- The rounded annotation value `round(gwp, 3 - len(str(int(gwp))))`. -/
def displayRound (v : ℚ) : ℚ := pyRoundTo v (ndigitsFor v)

/-- Column identifiers of the input CSV: the time axis plus the eight
configured substances (CO2 is the GWP reference). -/
inductive ColId : Type
  | time
  | sf6
  | n2o
  | ch4
  | hfc152a
  | hfc134a
  | cfc11
  | cfc14
  | co2
deriving DecidableEq

/-- The ordered `substances` list of the source (time axis excluded). -/
def substances : List ColId :=
  [.sf6, .n2o, .ch4, .hfc152a, .hfc134a, .cfc11, .cfc14, .co2]

/-- A loaded table: named columns of floats, as produced by `read_csv`. -/
abbrev Table : Type := List (ColId × List ℚ)

/-- Python exceptions the import block can actually raise. -/
inductive PyError : Type
  | keyError
deriving DecidableEq

/-- Column access `df[name]`: first column with the given name, `none`
modelling a KeyError. -/
def lookupCol {α : Type} (tbl : List (ColId × α)) (c : ColId) : Option α :=
  (tbl.find? (fun p => p.1 == c)).map (·.2)

/-- The line `RFI = RF.cumsum(0)`: cumulative sums of every column. -/
def importRFIall (tbl : Table) : Table := tbl.map (fun p => (p.1, cumsum p.2))

/-- The line dropping the time column from the cumulative sums. -/
def importRFI (tbl : Table) : Table :=
  (importRFIall tbl).filter (fun p => !(p.1 == ColId.time))

/-- The import block of `__main__`: set the index from the time column
(KeyError if absent), take cumulative sums of every column, drop the time
column, divide by the CO2 column of the cumulative sums (KeyError if
absent), and scale the integrated series. No schema or monotonicity
validation is performed anywhere. -/
def codePipeline (tbl : Table) :
    Except PyError (List (ColId × List ℚ) × List (ColId × List PFloat)) :=
  match lookupCol tbl ColId.time with
  | none => .error .keyError
  | some _ =>
    match lookupCol (importRFI tbl) ColId.co2 with
    | none => .error .keyError
    | some co2c =>
      .ok ((importRFI tbl).map (fun p => (p.1, p.2.map (· * scale))),
        (importRFI tbl).map (fun p => (p.1, List.zipWith pdiv p.2 co2c)))

/-- A complete table whose time column is not strictly increasing. -/
def badTimeTable : Table :=
  [(.time, [0, 5, 3]), (.sf6, [1, 1, 1]), (.n2o, [1, 1, 1]),
   (.ch4, [1, 1, 1]), (.hfc152a, [1, 1, 1]), (.hfc134a, [1, 1, 1]),
   (.cfc11, [1, 1, 1]), (.cfc14, [1, 1, 1]), (.co2, [1, 1, 1])]

lemma cumsumAux_length (xs : List ℚ) : ∀ a : ℚ, (cumsumAux a xs).length = xs.length := by
  induction xs with
  | nil => intro a; rfl
  | cons x tl ih => intro a; simp [cumsumAux, ih]

lemma cumsum_length (xs : List ℚ) : (cumsum xs).length = xs.length :=
  cumsumAux_length xs 0

lemma cumsumAux_getElem? (xs : List ℚ) :
    ∀ (a : ℚ) (t : ℕ), t < xs.length →
      (cumsumAux a xs)[t]? = some (a + (xs.take (t + 1)).sum) := by
  induction xs with
  | nil => intro a t ht; simp at ht
  | cons x tl ih =>
    intro a t ht
    cases t with
    | zero => simp [cumsumAux]
    | succ t =>
      have ht' : t < tl.length := by simpa using ht
      simp only [cumsumAux, List.getElem?_cons_succ, List.take_succ_cons,
        List.sum_cons]
      rw [ih (a + x) t ht']
      ring_nf

lemma cumsum_getElem? (xs : List ℚ) (t : ℕ) (ht : t < xs.length) :
    (cumsum xs)[t]? = some ((xs.take (t + 1)).sum) := by
  have := cumsumAux_getElem? xs 0 t ht
  simpa [cumsum] using this

lemma zipWith_pdiv_getElem? (xs ys : List ℚ) (t : ℕ) (a b : ℚ)
    (hx : xs[t]? = some a) (hy : ys[t]? = some b) :
    (List.zipWith pdiv xs ys)[t]? = some (pdiv a b) := by
  induction xs generalizing ys t with
  | nil => simp at hx
  | cons x xtl ih =>
    cases ys with
    | nil => simp at hy
    | cons y ytl =>
      cases t with
      | zero =>
        simp only [List.getElem?_cons_zero, Option.some.injEq] at hx hy
        simp [hx, hy]
      | succ t =>
        simp only [List.getElem?_cons_succ] at hx hy
        simpa using ih ytl t hx hy

lemma pdiv_mul_right (a b c : ℚ) (hc : c ≠ 0) (hb : b ≠ 0) :
    pdiv (a * c) (b * c) = pdiv a b := by
  have hbc : b * c ≠ 0 := mul_ne_zero hb hc
  simp only [pdiv, if_neg hbc, if_neg hb]
  rw [mul_div_mul_right a b hc]

lemma zipWith_pdiv_map_mul (c : ℚ) (hc : c ≠ 0) :
    ∀ (xs ys : List ℚ), (∀ v ∈ ys, v ≠ 0) →
      List.zipWith pdiv (xs.map (· * c)) (ys.map (· * c)) =
        List.zipWith pdiv xs ys := by
  intro xs
  induction xs with
  | nil => intro ys _; simp
  | cons x xtl ih =>
    intro ys hys
    cases ys with
    | nil => simp
    | cons y ytl =>
      have hy : y ≠ 0 := hys y (List.mem_cons_self y ytl)
      have hytl : ∀ v ∈ ytl, v ≠ 0 := fun v hv => hys v (List.mem_cons_of_mem y hv)
      simp only [List.map_cons, List.zipWith_cons_cons]
      rw [pdiv_mul_right x y c hc hy, ih ytl hytl]

lemma scale_ne_zero : scale ≠ 0 := by
  unfold scale year_in_s earth_area
  norm_num

lemma cumsum_getElem?_mem (xs : List ℚ) (t : ℕ) (v : ℚ)
    (h : (cumsum xs)[t]? = some v) : v ∈ cumsum xs :=
  List.getElem?_mem h

lemma lookupCol_cons_pos {α : Type} (p : ColId × α) (tl : List (ColId × α))
    (c : ColId) (h : (p.1 == c) = true) :
    lookupCol (p :: tl) c = some p.2 := by
  simp only [lookupCol, List.find?, h]
  rfl

lemma lookupCol_cons_neg {α : Type} (p : ColId × α) (tl : List (ColId × α))
    (c : ColId) (h : (p.1 == c) = false) :
    lookupCol (p :: tl) c = lookupCol tl c := by
  simp only [lookupCol, List.find?, h]

lemma lookupCol_map {α β : Type} (tbl : List (ColId × α)) (f : α → β)
    (c : ColId) :
    lookupCol (tbl.map (fun p => (p.1, f p.2))) c = (lookupCol tbl c).map f := by
  induction tbl with
  | nil => rfl
  | cons p tl ih =>
    rw [List.map_cons]
    cases hb : (p.1 == c) with
    | false =>
      rw [lookupCol_cons_neg (p.1, f p.2) _ c hb, lookupCol_cons_neg p _ c hb, ih]
    | true =>
      rw [lookupCol_cons_pos (p.1, f p.2) _ c hb, lookupCol_cons_pos p _ c hb]
      rfl

lemma lookupCol_filter_ne_time {α : Type} (tbl : List (ColId × α))
    (c : ColId) (hc : c ≠ ColId.time) :
    lookupCol (tbl.filter (fun p => !(p.1 == ColId.time))) c =
      lookupCol tbl c := by
  induction tbl with
  | nil => rfl
  | cons p tl ih =>
    cases ht : (p.1 == ColId.time) with
    | false =>
      rw [List.filter_cons_of_pos (by simp [ht])]
      cases hpc : (p.1 == c) with
      | false => rw [lookupCol_cons_neg _ _ _ hpc, lookupCol_cons_neg _ _ _ hpc, ih]
      | true => rw [lookupCol_cons_pos _ _ _ hpc, lookupCol_cons_pos _ _ _ hpc]
    | true =>
      have hpc : (p.1 == c) = false := by
        cases hq : (p.1 == c) with
        | false => rfl
        | true => exact absurd ((eq_of_beq hq).symm.trans (eq_of_beq ht)) hc
      rw [List.filter_cons_of_neg (by simp [ht])]
      rw [ih, lookupCol_cons_neg _ _ _ hpc]

/-- Claim C2: provided no CO2 cumulative-sum entry is zero (the spec calls
the zero-denominator case invalid), the GWP column the code computes from
the unscaled cumulative sums coincides with dividing the (scaled)
integrated series row-wise by its CO2 column, and the CO2 column of GWP is
identically `1.0`. -/
theorem gwp_from_integrated_co2_one (xs co2 : List ℚ)
    (hnz : ∀ v ∈ cumsum co2, v ≠ 0) :
    GWP xs co2 = List.zipWith pdiv (RFI xs) (RFI co2) ∧
    ∀ t, t < co2.length → (GWP co2 co2)[t]? = some (.num 1) := by
  constructor
  · unfold GWP RFI
    rw [zipWith_pdiv_map_mul scale scale_ne_zero (cumsum xs) (cumsum co2) hnz]
  · intro t ht
    have ht' : t < (cumsum co2).length := by rwa [cumsum_length]
    set v : ℚ := (cumsum co2).get ⟨t, ht'⟩ with hvdef
    have hv : (cumsum co2)[t]? = some v := List.getElem?_eq_getElem ht'
    have hvne : v ≠ 0 := hnz v (cumsum_getElem?_mem co2 t v hv)
    have := zipWith_pdiv_getElem? (cumsum co2) (cumsum co2) t v v hv hv
    unfold GWP
    rw [this]
    simp [pdiv, hvne, div_self hvne]

/-- Witness for C2 at the concrete CO2 column `[1, 2]` and column `[4, 6]`. -/
theorem gwp_from_integrated_co2_one_witness :
    GWP [4, 6] [1, 2] = List.zipWith pdiv (RFI [4, 6]) (RFI [1, 2]) ∧
    ∀ t, t < ([1, 2] : List ℚ).length → (GWP [1, 2] [1, 2])[t]? = some (.num 1) :=
  gwp_from_integrated_co2_one [4, 6] [1, 2] (by
    intro v hv
    simp [cumsum, cumsumAux] at hv
    rcases hv with rfl | rfl <;> norm_num)

/-- Claim C10: dividing the unscaled cumulative sums (the code's order)
yields the same GWP series as dividing after the cumulative sums are
multiplied by any nonzero scale factor, wherever the CO2 cumulative sums
are nonzero. -/
theorem gwp_scale_invariant (c : ℚ) (hc : c ≠ 0) (xs co2 : List ℚ)
    (hnz : ∀ v ∈ cumsum co2, v ≠ 0) :
    List.zipWith pdiv ((cumsum xs).map (· * c)) ((cumsum co2).map (· * c)) =
      GWP xs co2 := by
  unfold GWP
  exact zipWith_pdiv_map_mul c hc (cumsum xs) (cumsum co2) hnz

/-- Witness for C10 at scale 7, column `[4, 6]`, CO2 column `[1, 2]`. -/
theorem gwp_scale_invariant_witness :
    List.zipWith pdiv ((cumsum [4, 6]).map (· * 7)) ((cumsum [1, 2]).map (· * 7)) =
      GWP [4, 6] [1, 2] :=
  gwp_scale_invariant 7 (by norm_num) [4, 6] [1, 2] (by
    intro v hv
    simp [cumsum, cumsumAux] at hv
    rcases hv with rfl | rfl <;> norm_num)

/-- Claim C1: for every substance column and every row index `t` within the
series, the integrated series entry equals the inclusive cumulative sum of
the raw column over rows `0..t`, multiplied by `year_in_s * earth_area`. -/
theorem integrated_is_scaled_cumsum (xs : List ℚ) (t : ℕ) (ht : t < xs.length) :
    (RFI xs)[t]? = some ((xs.take (t + 1)).sum * (year_in_s * earth_area)) := by
  unfold RFI
  rw [List.getElem?_map, cumsum_getElem? xs t ht]
  rfl

/-- Witness for C1 at the concrete column `[3, 5, 7]` and row 2. -/
theorem integrated_is_scaled_cumsum_witness :
    ((RFI [3, 5, 7])[2]? = some ((([3, 5, 7] : List ℚ).take 3).sum * (year_in_s * earth_area))) :=
  integrated_is_scaled_cumsum [3, 5, 7] 2 (by decide)

/-- Claim C4: each configured horizon (all of which are at most `t_max`) is
flagged as just crossed exactly once over the frame sweep `0..999`, at the
unique frame whose previous and current simulation times bracket it as
`t_prev < h <= t_cur`. -/
theorem horizon_crossed_once (h : ℚ) (hm : h ∈ horizons) :
    ∃ f : ℤ, (0 ≤ f ∧ f < 1000 ∧ crossed f h ∧
        simTime (f - 1) < h ∧ h ≤ simTime f ∧
        (∀ g : ℤ, 0 ≤ g → g < 1000 → simTime (g - 1) < h → h ≤ simTime g → g = f)) ∧
      ∀ g : ℤ, 0 ≤ g → g < 1000 → crossed g h → g = f := by
  have hsim : ∀ g : ℤ, simTime g = g * 10 := by
    intro g
    unfold simTime t_max b_max
    norm_num
  simp only [horizons, List.mem_cons, List.not_mem_nil, or_false] at hm
  rcases hm with rfl | rfl | rfl
  · refine ⟨2, ⟨by norm_num, by norm_num, ?_, ?_, ?_, ?_⟩, ?_⟩
    · exact ⟨by rw [hsim]; norm_num, by rw [hsim]; norm_num⟩
    · rw [hsim]; norm_num
    · rw [hsim]; norm_num
    · intro g hg0 hg1 hprev hcur
      rw [hsim] at hprev hcur
      push_cast at hprev
      have hlti : g < (3:ℤ) := by exact_mod_cast (by linarith : (g:ℚ) < 3)
      have hgei : (2:ℤ) ≤ g := by exact_mod_cast (by linarith : (2:ℚ) ≤ g)
      omega
    · intro g hg0 hg1 hcr
      obtain ⟨hca, hcb⟩ := hcr
      rw [hsim] at hca hcb
      have hlt : (g:ℚ) < 21 / 10 := by linarith
      have hge : (2:ℚ) ≤ g := by linarith
      have hgei : (2:ℤ) ≤ g := by exact_mod_cast hge
      have hlti : g < (3:ℤ) := by exact_mod_cast (by linarith : (g:ℚ) < 3)
      omega
  · refine ⟨10, ⟨by norm_num, by norm_num, ?_, ?_, ?_, ?_⟩, ?_⟩
    · exact ⟨by rw [hsim]; norm_num, by rw [hsim]; norm_num⟩
    · rw [hsim]; norm_num
    · rw [hsim]; norm_num
    · intro g hg0 hg1 hprev hcur
      rw [hsim] at hprev hcur
      push_cast at hprev
      have hlti : g < (11:ℤ) := by exact_mod_cast (by linarith : (g:ℚ) < 11)
      have hgei : (10:ℤ) ≤ g := by exact_mod_cast (by linarith : (10:ℚ) ≤ g)
      omega
    · intro g hg0 hg1 hcr
      obtain ⟨hca, hcb⟩ := hcr
      rw [hsim] at hca hcb
      have hge : (10:ℚ) ≤ g := by linarith
      have hgei : (10:ℤ) ≤ g := by exact_mod_cast hge
      have hlti : g < (11:ℤ) := by exact_mod_cast (by linarith : (g:ℚ) < 11)
      omega
  · refine ⟨50, ⟨by norm_num, by norm_num, ?_, ?_, ?_, ?_⟩, ?_⟩
    · exact ⟨by rw [hsim]; norm_num, by rw [hsim]; norm_num⟩
    · rw [hsim]; norm_num
    · rw [hsim]; norm_num
    · intro g hg0 hg1 hprev hcur
      rw [hsim] at hprev hcur
      push_cast at hprev
      have hlti : g < (51:ℤ) := by exact_mod_cast (by linarith : (g:ℚ) < 51)
      have hgei : (50:ℤ) ≤ g := by exact_mod_cast (by linarith : (50:ℚ) ≤ g)
      omega
    · intro g hg0 hg1 hcr
      obtain ⟨hca, hcb⟩ := hcr
      rw [hsim] at hca hcb
      have hge : (50:ℚ) ≤ g := by linarith
      have hgei : (50:ℤ) ≤ g := by exact_mod_cast hge
      have hlti : g < (51:ℤ) := by exact_mod_cast (by linarith : (g:ℚ) < 51)
      omega

/-- Witness for C4 at the concrete horizon 20. -/
theorem horizon_crossed_once_witness :
    ∃ f : ℤ, (0 ≤ f ∧ f < 1000 ∧ crossed f 20 ∧
        simTime (f - 1) < 20 ∧ (20:ℚ) ≤ simTime f ∧
        (∀ g : ℤ, 0 ≤ g → g < 1000 → simTime (g - 1) < 20 → (20:ℚ) ≤ simTime g → g = f)) ∧
      ∀ g : ℤ, 0 ≤ g → g < 1000 → crossed g 20 → g = f :=
  horizon_crossed_once 20 (by simp [horizons])

/-- Counterexample for C3: at horizon 20 with timestep 7.5 the code's row
`int(h/timestep)` is 2, while the claimed `round(h/timestep)` clamped to
the valid row range of a 1001-row series is 3. -/
theorem row_for_horizon_counterexample :
    rowLookup 20 (15/2) = 2 ∧
    max 0 (min (pyRound (20 / (15/2))) (1001 - 1)) = 3 ∧
    rowLookup 20 (15/2) ≠ max 0 (min (pyRound (20 / (15/2))) (1001 - 1)) := by
  have h1 : ((20:ℚ) / (15/2)) = 8/3 := by norm_num
  have h2 : rowLookup 20 (15/2) = 2 := by
    unfold rowLookup pyInt
    rw [h1, if_pos (by norm_num)]
    norm_num
  have h3 : pyRound ((20:ℚ) / (15/2)) = 3 := by
    unfold pyRound
    rw [h1]
    rw [if_neg (by norm_num)]
    norm_num
  refine ⟨h2, ?_, ?_⟩
  · rw [h3]; norm_num
  · rw [h2, h3]; norm_num

/-- Claim C3 (amended): the row the code uses for a horizon annotation is
`int(h/timestep)`, i.e. the floor of h/timestep for a nonnegative horizon
and positive timestep; no clamping is applied and no RangeError is raised:
the lookup is a plain positional access at that row, which succeeds exactly
when the row is within the series. -/
theorem row_for_horizon_trunc (h ts : ℚ) (hh : 0 ≤ h) (hts : 0 < ts) :
    rowLookup h ts = ⌊h / ts⌋ ∧
    ∀ g : List PFloat, horizonGWP g h ts = g[(⌊h / ts⌋).toNat]? := by
  have hq : 0 ≤ h / ts := div_nonneg hh (le_of_lt hts)
  have hfl : 0 ≤ ⌊h / ts⌋ := Int.floor_nonneg.mpr hq
  have hrl : rowLookup h ts = ⌊h / ts⌋ := by
    unfold rowLookup pyInt
    rw [if_pos hq]
  refine ⟨hrl, fun g => ?_⟩
  unfold horizonGWP pyIloc
  rw [hrl, if_pos hfl]

/-- Witness for C3's amended claim at horizon 20, timestep 1. -/
theorem row_for_horizon_trunc_witness :
    rowLookup 20 1 = ⌊(20:ℚ) / 1⌋ ∧
    ∀ g : List PFloat, horizonGWP g 20 1 = g[(⌊(20:ℚ) / 1⌋).toNat]? :=
  row_for_horizon_trunc 20 1 (by norm_num) (by norm_num)

/-- Counterexample for C5: at frame -1 with timestep 1 the code's reveal
bound is -10, not the claimed clamp to row 0; on a series of 1001 rows the
Python slice with that negative bound emits 991 rows, so out-of-range
frames are not clamped at the boundary. -/
theorem frame_clamp_counterexample :
    index_b (-1) 1 = -10 ∧
    max 0 (min ⌊simTime (-1) / 1⌋ (1001 - 1)) = 0 ∧
    index_b (-1) 1 ≠ max 0 (min ⌊simTime (-1) / 1⌋ (1001 - 1)) ∧
    (pySliceTo (List.replicate 1001 (0:ℚ)) (index_b (-1) 1)).length = 991 := by
  have hsim : simTime (-1) = -10 := by
    unfold simTime t_max b_max
    norm_num
  have hidx : index_b (-1) 1 = -10 := by
    unfold index_b pyInt
    rw [hsim]
    rw [if_neg (by norm_num)]
    rw [div_one]
    rw [show ((-10:ℚ)) = ((-10:ℤ) : ℚ) by norm_num]
    rw [Int.ceil_intCast]
  have hfl : ⌊simTime (-1) / 1⌋ = -10 := by
    rw [hsim]
    norm_num
  refine ⟨hidx, by rw [hfl]; norm_num, by rw [hidx, hfl]; norm_num, ?_⟩
  rw [hidx]
  unfold pySliceTo
  rw [if_pos (by norm_num)]
  rw [show (((List.replicate 1001 (0:ℚ)).length : ℤ) + -10).toNat = 991 by
    rw [List.length_replicate]
    rfl]
  rw [List.length_take, List.length_replicate]
  norm_num

/-- Claim C5 (amended): for every integer frame the per-frame computation
is total and safe: every emitted panel is an initial segment of its series
(so every access it induces is in bounds), and a frame whose reveal bound
reaches past the series emits the whole series; but the reveal bound is not
itself clamped to the row range: a negative frame produces a negative bound
that Python interprets from the end of the series instead of clamping to
row 0. -/
theorem frame_slice_total (f : ℤ) (ts : ℚ) (xs : List ℚ) :
    (pySliceTo xs (index_b f ts)).length ≤ xs.length ∧
    (∀ i : ℕ, i < (pySliceTo xs (index_b f ts)).length →
      (pySliceTo xs (index_b f ts))[i]? = xs[i]?) ∧
    ((xs.length : ℤ) ≤ index_b f ts → pySliceTo xs (index_b f ts) = xs) := by
  have hform : ∃ k : ℕ, pySliceTo xs (index_b f ts) = xs.take k := by
    unfold pySliceTo
    split
    · exact ⟨((xs.length : ℤ) + index_b f ts).toNat, rfl⟩
    · exact ⟨(index_b f ts).toNat, rfl⟩
  obtain ⟨k, hk⟩ := hform
  refine ⟨?_, ?_, ?_⟩
  · rw [hk, List.length_take]
    exact min_le_right _ _
  · intro i hi
    rw [hk] at hi ⊢
    rw [List.length_take] at hi
    exact List.getElem?_take_of_lt (lt_of_lt_of_le hi (min_le_left _ _))
  · intro hle
    have hpos : ¬ index_b f ts < 0 := by
      intro hneg
      have : (0:ℤ) ≤ xs.length := Int.ofNat_nonneg _
      omega
    unfold pySliceTo
    rw [if_neg hpos]
    apply List.take_of_length_le
    have : (xs.length : ℤ) ≤ ((index_b f ts).toNat : ℤ) := by
      rwa [Int.toNat_of_nonneg (by omega)]
    exact_mod_cast this

/-- Witness for C5's amended claim at frame -1, timestep 1, a one-row series. -/
theorem frame_slice_total_witness :
    (pySliceTo [(5:ℚ)] (index_b (-1) 1)).length ≤ ([(5:ℚ)] : List ℚ).length ∧
    (∀ i : ℕ, i < (pySliceTo [(5:ℚ)] (index_b (-1) 1)).length →
      (pySliceTo [(5:ℚ)] (index_b (-1) 1))[i]? = ([(5:ℚ)] : List ℚ)[i]?) ∧
    ((([(5:ℚ)] : List ℚ).length : ℤ) ≤ index_b (-1) 1 →
      pySliceTo [(5:ℚ)] (index_b (-1) 1) = [(5:ℚ)]) :=
  frame_slice_total (-1) 1 [(5:ℚ)]

/-- Counterexample for C7: at frame 1 with timestep 1 the reveal bound is
row 10; on a series of 11 rows the emitted raw panel is the 10-row
end-exclusive slice, not the claimed slice through row 10 inclusive. -/
theorem emit_inclusive_counterexample :
    index_b 1 1 = 10 ∧
    (animate_emit 1 1 (List.replicate 11 (0:ℚ)) (List.replicate 11 (0:ℚ))
        (List.replicate 11 PFloat.nan)).1 ≠
      (List.replicate 11 (0:ℚ)).take (10 + 1) := by
  have hsim : simTime 1 = 10 := by
    unfold simTime t_max b_max
    norm_num
  have hidx : index_b 1 1 = 10 := by
    unfold index_b pyInt
    rw [hsim]
    rw [if_pos (by norm_num)]
    norm_num
  have hemit : (animate_emit 1 1 (List.replicate 11 (0:ℚ))
      (List.replicate 11 (0:ℚ)) (List.replicate 11 PFloat.nan)).1 =
      (List.replicate 11 (0:ℚ)).take 10 := by
    show pySliceTo (List.replicate 11 (0:ℚ)) (index_b 1 1) = _
    unfold pySliceTo
    rw [hidx, if_neg (by norm_num)]
    rfl
  refine ⟨hidx, fun heq => ?_⟩
  rw [hemit] at heq
  have hlen := congrArg List.length heq
  rw [List.length_take, List.length_take, List.length_replicate] at hlen
  norm_num at hlen

/-- Claim C7 (amended): on a frame whose reveal bound `r = index_b` is
nonnegative, each of the three emitted panels is the end-exclusive slice of
its series covering rows 0 through r-1: its length is `min r` (series
length), and it agrees with its series entry-wise below `r`. -/
theorem emit_exclusive (f : ℤ) (ts : ℚ) (raw rfi : List ℚ)
    (gwp : List PFloat) (hr : 0 ≤ index_b f ts) :
    ((animate_emit f ts raw rfi gwp).1.length =
        min (index_b f ts).toNat raw.length ∧
      ∀ i : ℕ, i < (index_b f ts).toNat →
        (animate_emit f ts raw rfi gwp).1[i]? = raw[i]?) ∧
    ((animate_emit f ts raw rfi gwp).2.1.length =
        min (index_b f ts).toNat rfi.length ∧
      ∀ i : ℕ, i < (index_b f ts).toNat →
        (animate_emit f ts raw rfi gwp).2.1[i]? = rfi[i]?) ∧
    ((animate_emit f ts raw rfi gwp).2.2.length =
        min (index_b f ts).toNat gwp.length ∧
      ∀ i : ℕ, i < (index_b f ts).toNat →
        (animate_emit f ts raw rfi gwp).2.2[i]? = gwp[i]?) := by
  have hslice : ∀ {α : Type} (xs : List α),
      pySliceTo xs (index_b f ts) = xs.take (index_b f ts).toNat := by
    intro α xs
    unfold pySliceTo
    rw [if_neg (by omega)]
  refine ⟨⟨?_, ?_⟩, ⟨?_, ?_⟩, ⟨?_, ?_⟩⟩ <;>
    simp only [animate_emit, hslice]
  · rw [List.length_take]
  · intro i hi
    exact List.getElem?_take_of_lt hi
  · rw [List.length_take]
  · intro i hi
    exact List.getElem?_take_of_lt hi
  · rw [List.length_take]
  · intro i hi
    exact List.getElem?_take_of_lt hi

/-- Witness for C7's amended claim at frame 1, timestep 10, tiny series. -/
theorem emit_exclusive_witness :
    ((animate_emit 1 10 [(3:ℚ), 4] [(5:ℚ), 6] [PFloat.nan, PFloat.num 2]).1.length =
        min (index_b 1 10).toNat ([(3:ℚ), 4] : List ℚ).length ∧
      ∀ i : ℕ, i < (index_b 1 10).toNat →
        (animate_emit 1 10 [(3:ℚ), 4] [(5:ℚ), 6]
            [PFloat.nan, PFloat.num 2]).1[i]? = ([(3:ℚ), 4] : List ℚ)[i]?) ∧
    ((animate_emit 1 10 [(3:ℚ), 4] [(5:ℚ), 6] [PFloat.nan, PFloat.num 2]).2.1.length =
        min (index_b 1 10).toNat ([(5:ℚ), 6] : List ℚ).length ∧
      ∀ i : ℕ, i < (index_b 1 10).toNat →
        (animate_emit 1 10 [(3:ℚ), 4] [(5:ℚ), 6]
            [PFloat.nan, PFloat.num 2]).2.1[i]? = ([(5:ℚ), 6] : List ℚ)[i]?) ∧
    ((animate_emit 1 10 [(3:ℚ), 4] [(5:ℚ), 6] [PFloat.nan, PFloat.num 2]).2.2.length =
        min (index_b 1 10).toNat ([PFloat.nan, PFloat.num 2] : List PFloat).length ∧
      ∀ i : ℕ, i < (index_b 1 10).toNat →
        (animate_emit 1 10 [(3:ℚ), 4] [(5:ℚ), 6]
            [PFloat.nan, PFloat.num 2]).2.2[i]? =
          ([PFloat.nan, PFloat.num 2] : List PFloat)[i]?) :=
  emit_exclusive 1 10 [(3:ℚ), 4] [(5:ℚ), 6] [PFloat.nan, PFloat.num 2] (by
    unfold index_b pyInt simTime t_max b_max
    rw [if_pos (by norm_num)]
    norm_num)

/-- Counterexample for C6: with a CO2 raw column starting at zero forcing,
the division at row 0 is 0/0, which the code's element-wise division turns
into NaN: no error is raised and no 1.0 convention applies at row 0. -/
theorem gwp_zero_co2_counterexample :
    GWP [0, 1] [0, 1] = [PFloat.nan, PFloat.num 1] ∧
    PFloat.nan ≠ PFloat.num 1 := by
  have hcs : cumsum [0, 1] = [0, 1] := by
    simp only [cumsum, cumsumAux]
    norm_num
  have h00 : pdiv 0 0 = PFloat.nan := by
    unfold pdiv
    norm_num
  have h11 : pdiv 1 1 = PFloat.num 1 := by
    unfold pdiv
    norm_num
  constructor
  · unfold GWP
    rw [hcs]
    simp [h00, h11]
  · intro h
    cases h

/-- Claim C6 (amended): a zero CO2 cumulative entry never raises: the
element-wise division is total, producing NaN for 0/0 and plus or minus
infinity otherwise, at every row including row 0; no 1.0 convention
exists. -/
theorem gwp_zero_co2_total (xs co2 : List ℚ) (t : ℕ) (a : ℚ)
    (hx : (cumsum xs)[t]? = some a) (hy : (cumsum co2)[t]? = some 0) :
    (GWP xs co2)[t]? =
      some (if a = 0 then PFloat.nan
            else if 0 < a then PFloat.posInf else PFloat.negInf) := by
  unfold GWP
  rw [zipWith_pdiv_getElem? _ _ t a 0 hx hy]
  simp [pdiv]

/-- Witness for C6's amended claim: raw column `[2]` against CO2 column `[0]`. -/
theorem gwp_zero_co2_total_witness :
    (GWP [2] [0])[0]? =
      some (if (2:ℚ) = 0 then PFloat.nan
            else if 0 < (2:ℚ) then PFloat.posInf else PFloat.negInf) :=
  gwp_zero_co2_total [2] [0] 0 2
    (by simp [cumsum, cumsumAux]) (by simp [cumsum, cumsumAux])

/-- Counterexample for C8: the digit-count argument the rule produces for
the value 0.5 is `3 - len(str(int(0.5))) = 3 - 1 = 2`, so 0.5 is rounded to
2 decimal places, not the claimed 3. -/
theorem round_halfdigit_counterexample :
    ndigitsFor (1/2) = 2 ∧ (2:ℤ) ≠ 3 := by
  constructor
  · have hint : pyInt (1/2) = 0 := by
      unfold pyInt
      rw [if_pos (by norm_num)]
      norm_num
    unfold ndigitsFor
    rw [hint, show digitCount 0 = 1 from rfl]
    norm_num
  · norm_num

/-- Claim C8 (amended): annotation values are rounded with
`round(v, 3 - digit_count(int(v)))`: 1234.5 gets digit argument -1 and
rounds to the 3-significant-figure magnitude 1230, and 0.5 gets digit
argument 2 (two decimal places, since digit_count(0) = 1), leaving 0.5
unchanged. -/
theorem display_round_rule :
    displayRound (2469/2) = 1230 ∧ ndigitsFor (2469/2) = -1 ∧
    displayRound (1/2) = 1/2 ∧ ndigitsFor (1/2) = 2 := by
  have hint1 : pyInt (2469/2) = 1234 := by
    unfold pyInt
    rw [if_pos (by norm_num)]
    norm_num
  have hnd1 : ndigitsFor (2469/2) = -1 := by
    unfold ndigitsFor
    rw [hint1, show digitCount 1234 = 4 from rfl]
    norm_num
  have hint2 : pyInt (1/2) = 0 := by
    unfold pyInt
    rw [if_pos (by norm_num)]
    norm_num
  have hnd2 : ndigitsFor (1/2) = 2 := by
    unfold ndigitsFor
    rw [hint2, show digitCount 0 = 1 from rfl]
    norm_num
  refine ⟨?_, hnd1, ?_, hnd2⟩
  · unfold displayRound
    rw [hnd1]
    unfold pyRoundTo
    rw [if_neg (by norm_num)]
    rw [show ((-(-1:ℤ)).toNat) = 1 from rfl]
    rw [show ((2469:ℚ)/2 / 10 ^ (1:ℕ)) = 2469/20 by norm_num]
    have h123 : pyRound ((2469:ℚ)/20) = 123 := by
      unfold pyRound
      rw [if_neg (by norm_num)]
      norm_num
    rw [h123]
    norm_num
  · unfold displayRound
    rw [hnd2]
    unfold pyRoundTo
    rw [if_pos (by norm_num)]
    rw [show ((2:ℤ).toNat) = 2 from rfl]
    rw [show ((1:ℚ)/2 * 10 ^ (2:ℕ)) = 50 by norm_num]
    have h50 : pyRound (50:ℚ) = 50 := by
      unfold pyRound
      rw [if_neg (by norm_num)]
      norm_num
    rw [h50]
    norm_num

/-- Counterexample for C9: the pipeline runs to completion on a table whose
time column `[0, 5, 3]` is not strictly increasing: no DataError (nor any
other failure) is raised, and the derived series are produced. -/
theorem load_no_dataerror_counterexample :
    (codePipeline badTimeTable).isOk = true := rfl

/-- Claim C9 (amended): the import block performs no load-time validation:
whenever the table has a time column and a CO2 column it runs to
completion, whatever the time values; there is no SchemaError or DataError,
and a missing CO2 column surfaces only as a key lookup failure at the GWP
division, after the cumulative sums have been formed. -/
theorem load_no_validation (tbl : Table)
    (htime : (lookupCol tbl ColId.time).isSome = true)
    (hco2 : (lookupCol tbl ColId.co2).isSome = true) :
    (codePipeline tbl).isOk = true := by
  obtain ⟨tc, htc⟩ := Option.isSome_iff_exists.mp htime
  obtain ⟨cc, hcc⟩ := Option.isSome_iff_exists.mp hco2
  have hlook : lookupCol (importRFI tbl) ColId.co2 = some (cumsum cc) := by
    unfold importRFI importRFIall
    rw [lookupCol_filter_ne_time _ _ (by intro h; cases h)]
    rw [lookupCol_map]
    rw [hcc]
    rfl
  unfold codePipeline
  rw [htc, hlook]
  rfl

/-- Witness for C9's amended claim on a minimal two-column table. -/
theorem load_no_validation_witness :
    (codePipeline [(ColId.time, [0]), (ColId.co2, [1])]).isOk = true :=
  load_no_validation [(ColId.time, [0]), (ColId.co2, [1])] rfl rfl

end RadiativeForcing
